import Mathlib

/-!
Verification of the block-ingestion and blob-fee core of the eth-gas-feed
repository, shallowly embedded in Lean.  The fee model follows
services/lib/blob-fee.js together with its constants module, the store
access layer follows services/lib/db.js, and the live-subscriber gap
handling follows the ingestion service.  JavaScript numbers that hold
block counters are modelled as Nat, nullable values as Option, and
JavaScript truthiness tests on numbers as an explicit check against 0.
-/

/-! ## Constants (services/lib/constants.js) -/

def MIN_BASE_FEE_PER_BLOB_GAS : Nat := 1

def BLOB_GAS_PER_BLOB : Nat := 131072

def BLOB_BASE_FEE_UPDATE_FRACTION_PRAGUE : Nat := 5007716

def BLOB_BASE_FEE_UPDATE_FRACTION_BPO1 : Nat := 8346193

def BLOB_BASE_FEE_UPDATE_FRACTION_BPO2 : Nat := 11684671

def BPO1_UPGRADE_TIMESTAMP : Nat := 1765290071

def BPO2_UPGRADE_TIMESTAMP : Nat := 1767747671

/-! ## Fee model (services/lib/blob-fee.js) -/

/-- JavaScript truthiness of a nullable number: null and 0 are falsy. -/
def truthyN : Option Nat → Bool
  | none => false
  | some n => n != 0

/-- The while loop of fakeExponential in exact unbounded integers:
accumulates the series terms into output, updating numeratorAccum by floor
division each round.  The JavaScript source computes in IEEE-754 doubles,
which agrees with this exact model while every intermediate stays below
2 to the 53; fakeExpJSFuel below models the rounded double arithmetic. -/
def fakeExpLoop (numerator denominator : Nat) (i output numeratorAccum : Nat) : Nat :=
  if h : 0 < numeratorAccum then
    fakeExpLoop numerator denominator (i + 1) (output + numeratorAccum)
      (numeratorAccum * numerator / (denominator * i))
  else output
termination_by (numerator / denominator + 1 - i, numeratorAccum)
decreasing_by
  simp_wf
  rcases Nat.lt_or_ge i (numerator / denominator + 1) with hlt | hge
  · exact Prod.Lex.left _ _ (by omega)
  · have h0 : numerator / denominator + 1 - i = 0 := by omega
    have h1 : numerator / denominator - i = 0 := by omega
    rw [h0, h1]
    refine Prod.Lex.right _ ?_
    rcases Nat.eq_zero_or_pos denominator with hd | hd
    · subst hd
      simpa using h
    · have hipos : 0 < i := Nat.lt_of_lt_of_le (Nat.succ_pos _) hge
      have hpos : 0 < denominator * i := Nat.mul_pos hd hipos
      rw [Nat.div_lt_iff_lt_mul hpos]
      have hnum : numerator < denominator * i := by
        have h2 : denominator * (numerator / denominator) + numerator % denominator
            = numerator := Nat.div_add_mod _ _
        have h3 : numerator % denominator < denominator := Nat.mod_lt _ hd
        have h4 : denominator * (numerator / denominator + 1) ≤ denominator * i :=
          Nat.mul_le_mul_left _ hge
        rw [Nat.mul_succ] at h4
        omega
      exact mul_lt_mul_of_pos_left hnum h

/-- fakeExponential from services/lib/blob-fee.js in exact unbounded
integers: i starts at 1, output at 0, numeratorAccum at factor times
denominator; the final result is the floor of output divided by denominator.
Faithful to the JavaScript Number computation only while intermediates stay
below 2 to the 53; see fakeExponentialJS for the double-rounded semantics. -/
def fakeExponential (factor numerator denominator : Nat) : Nat :=
  fakeExpLoop numerator denominator 1 0 (factor * denominator) / denominator

/-- Fuel-bounded executable form of the fakeExponential loop, returning none
when the step budget is exhausted.  Used to evaluate the loop on concrete
inputs and to state its termination. -/
def fakeExpFuel (numerator denominator : Nat) : Nat → Nat → Nat → Nat → Option Nat
  | 0, _, _, _ => none
  | fuel + 1, i, output, numeratorAccum =>
    if numeratorAccum = 0 then some (output / denominator)
    else fakeExpFuel numerator denominator fuel (i + 1) (output + numeratorAccum)
      (numeratorAccum * numerator / (denominator * i))

/-- Modelled from the spec: the protocol reference series loop — accumulate
output plus term, update term to the floor of term times numerator over
denominator times i, i incrementing from 1, stopping when term is 0, finally
returning the floor of output over denominator. -/
def refSeriesLoop (numerator denominator : Nat) (i output term : Nat) : Nat :=
  if h : 0 < term then
    refSeriesLoop numerator denominator (i + 1) (output + term)
      (term * numerator / (denominator * i))
  else output / denominator
termination_by (numerator / denominator + 1 - i, term)
decreasing_by
  simp_wf
  rcases Nat.lt_or_ge i (numerator / denominator + 1) with hlt | hge
  · exact Prod.Lex.left _ _ (by omega)
  · have h0 : numerator / denominator + 1 - i = 0 := by omega
    have h1 : numerator / denominator - i = 0 := by omega
    rw [h0, h1]
    refine Prod.Lex.right _ ?_
    rcases Nat.eq_zero_or_pos denominator with hd | hd
    · subst hd
      simpa using h
    · have hipos : 0 < i := Nat.lt_of_lt_of_le (Nat.succ_pos _) hge
      have hpos : 0 < denominator * i := Nat.mul_pos hd hipos
      rw [Nat.div_lt_iff_lt_mul hpos]
      have hnum : numerator < denominator * i := by
        have h2 : denominator * (numerator / denominator) + numerator % denominator
            = numerator := Nat.div_add_mod _ _
        have h3 : numerator % denominator < denominator := Nat.mod_lt _ hd
        have h4 : denominator * (numerator / denominator + 1) ≤ denominator * i :=
          Nat.mul_le_mul_left _ hge
        rw [Nat.mul_succ] at h4
        omega
      exact mul_lt_mul_of_pos_left hnum h

/-- Modelled from the spec: the full reference series, starting from
term equal to factor times denominator. -/
def referenceFakeExponential (factor numerator denominator : Nat) : Nat :=
  refSeriesLoop numerator denominator 1 0 (factor * denominator)

/-- getUpdateFraction from services/lib/blob-fee.js: the JavaScript guard
blockTimestamp is a truthiness test, so null and 0 both fall through to the
Prague fraction. -/
def getUpdateFraction (blockTimestamp : Option Nat) : Nat :=
  if truthyN blockTimestamp = true ∧ BPO2_UPGRADE_TIMESTAMP ≤ blockTimestamp.getD 0 then
    BLOB_BASE_FEE_UPDATE_FRACTION_BPO2
  else if truthyN blockTimestamp = true ∧ BPO1_UPGRADE_TIMESTAMP ≤ blockTimestamp.getD 0 then
    BLOB_BASE_FEE_UPDATE_FRACTION_BPO1
  else BLOB_BASE_FEE_UPDATE_FRACTION_PRAGUE

/-- calculateBlobBaseFee from services/lib/blob-fee.js. -/
def calculateBlobBaseFee (excessBlobGas : Nat) (blockTimestamp : Option Nat) : Nat :=
  fakeExponential MIN_BASE_FEE_PER_BLOB_GAS excessBlobGas (getUpdateFraction blockTimestamp)

/-! ## Binary64 model of the JavaScript Number arithmetic -/

/-- Binary length of a natural number, with a structural fuel argument so the
kernel can evaluate it; the length of n never exceeds n, so n is enough
fuel. -/
def bitsAux : Nat → Nat → Nat
  | 0, _ => 0
  | fuel + 1, n => if n = 0 then 0 else bitsAux fuel (n / 2) + 1

/-- Binary length of a natural number: 0 for 0, otherwise one more than the
floor of its base-2 logarithm. -/
def bitLength (n : Nat) : Nat := bitsAux n n

/-- Models IEEE-754 binary64 rounding of a non-negative integer, as performed
by every JavaScript Number product and sum in blob-fee.js: integers below
2 to the 53 are exact; larger ones keep 53 significant bits, rounding to
nearest with ties to even. -/
def jsRoundInt (n : Nat) : Nat :=
  if n < 2 ^ 53 then n
  else
    let shift := bitLength n - 53
    let m := n / 2 ^ shift
    let r := n % 2 ^ shift
    let half := 2 ^ (shift - 1)
    let m2 :=
      if r < half then m
      else if half < r then m + 1
      else if m % 2 = 0 then m else m + 1
    m2 * 2 ^ shift

/-- Models Math.floor of a JavaScript division of two non-negative
integer-valued doubles: the exact rational a / b is rounded to the nearest
binary64 value (53 significant bits, ties to even), then floored.  A
quotient below 1 floors to 0 unless it rounds up to exactly 1.  Division by
zero, which JavaScript sends to Infinity, is not reached by the fee loop and
is mapped to 0. -/
def jsFloorDiv (a b : Nat) : Nat :=
  if a = 0 ∨ b = 0 then 0
  else if a < b then
    if b * (2 ^ 54 - 1) ≤ a * 2 ^ 54 then 1 else 0
  else
    let e := bitLength (a / b) - 1
    if e ≤ 52 then
      let p := a * 2 ^ (52 - e)
      let m := p / b
      let r := p % b
      let m2 :=
        if 2 * r < b then m
        else if b < 2 * r then m + 1
        else if m % 2 = 0 then m else m + 1
      m2 / 2 ^ (52 - e)
    else
      let q := b * 2 ^ (e - 52)
      let m := a / q
      let r := a % q
      let m2 :=
        if 2 * r < q then m
        else if q < 2 * r then m + 1
        else if m % 2 = 0 then m else m + 1
      m2 * 2 ^ (e - 52)

/-- The fakeExponential loop of blob-fee.js under JavaScript Number
semantics: every product and sum is rounded to binary64 and every division
is the rounded double quotient followed by Math.floor.  All loop state
values are integer-valued doubles, so the state is carried as Nat.  Fuel
bounds the iteration count for kernel evaluation. -/
def fakeExpJSFuel (numerator denominator : Nat) : Nat → Nat → Nat → Nat → Option Nat
  | 0, _, _, _ => none
  | fuel + 1, i, output, numeratorAccum =>
    if numeratorAccum = 0 then some (jsFloorDiv output denominator)
    else
      fakeExpJSFuel numerator denominator fuel (i + 1) (jsRoundInt (output + numeratorAccum))
        (jsFloorDiv (jsRoundInt (numeratorAccum * numerator)) (jsRoundInt (denominator * i)))

/-- fakeExponential from services/lib/blob-fee.js under JavaScript Number
semantics: the arguments themselves are doubles, so each is rounded to
binary64 before the loop runs. -/
def fakeExponentialJS (factor numerator denominator fuel : Nat) : Option Nat :=
  let factorD := jsRoundInt factor
  let numeratorD := jsRoundInt numerator
  let denominatorD := jsRoundInt denominator
  fakeExpJSFuel numeratorD denominatorD fuel 1 0 (jsRoundInt (factorD * denominatorD))

/-! ## Persistent store model (services/lib/db.js) -/

/-- A block as delivered by the upstream provider; absent fields are none. -/
structure Block where
  number : Nat
  gasLimit : Nat
  gasUsed : Nat
  baseFeePerGas : Option Nat
  blobGasUsed : Option Nat
  excessBlobGas : Option Nat
  timestamp : Option Nat
deriving DecidableEq

/-- One row of the blocks table, with the columns written by insertBlock and
the created_at column filled by the database default. -/
structure Row where
  block_number : Nat
  gas_limit : Nat
  gas_used : Nat
  base_fee : Nat
  blob_count : Nat
  blob_base_fee : Nat
  excess_blob_gas : Nat
  block_timestamp : Option Nat
  created_at : Int
deriving DecidableEq

/-- The blocks table, as the list of its rows. -/
abbrev Store := List Row

/-- The row insertBlock builds from a provider block: excess blob gas uses
nullish coalescing to 0, blob count is the ceiling of blobGasUsed over
BLOB_GAS_PER_BLOB behind a truthiness guard, the unix timestamp and the
stored timestamp both go through truthiness guards, and baseFeePerGas uses
a truthiness fallback to 0. -/
def rowOfBlock (b : Block) (now : Int) : Row :=
  let excessBlobGas := b.excessBlobGas.getD 0
  let blobCount :=
    if truthyN b.blobGasUsed then
      (b.blobGasUsed.getD 0 + BLOB_GAS_PER_BLOB - 1) / BLOB_GAS_PER_BLOB
    else 0
  let blockTimestampUnix : Option Nat :=
    if truthyN b.timestamp then some (b.timestamp.getD 0) else none
  let blobBaseFee := calculateBlobBaseFee excessBlobGas blockTimestampUnix
  let blockTimestamp : Option Nat :=
    if truthyN blockTimestampUnix then some (blockTimestampUnix.getD 0) else none
  { block_number := b.number
    gas_limit := b.gasLimit
    gas_used := b.gasUsed
    base_fee := if truthyN b.baseFeePerGas then b.baseFeePerGas.getD 0 else 0
    blob_count := blobCount
    blob_base_fee := blobBaseFee
    excess_blob_gas := excessBlobGas
    block_timestamp := blockTimestamp
    created_at := now }

/-- Whether the table already holds a row with the given block number. -/
def hasBlockNumber (s : Store) (n : Nat) : Bool :=
  s.any (fun r => r.block_number == n)

/-- Number of rows with the given block number. -/
def countRows (s : Store) (n : Nat) : Nat :=
  (s.filter (fun r => r.block_number == n)).length

/-- insertBlock from services/lib/db.js: INSERT ... ON CONFLICT (block_number)
DO NOTHING, reporting through RETURNING whether a row was written. -/
def insertBlockStore (s : Store) (b : Block) (now : Int) : Store × Bool :=
  if hasBlockNumber s b.number then (s, false)
  else (s ++ [rowOfBlock b now], true)

/-- There is a stored row for the given block number. -/
def containsBlock (s : Store) (n : Nat) : Prop :=
  ∃ r ∈ s, r.block_number = n

/-- One gap descriptor as produced by the findGaps query. -/
structure GapRow where
  after_block : Nat
  before_block : Nat
  missing_count : Nat
deriving DecidableEq

/-- The LAG comparison of the findGaps query over the ordered block numbers:
each adjacent pair with difference above 1 yields a row built from the upper
number and the gap size. -/
def gapsOfSorted : List Nat → List GapRow
  | a :: b :: rest =>
    (if 1 < b - a then
        [{ after_block := b - (b - a), before_block := b, missing_count := b - a - 1 }]
      else [])
      ++ gapsOfSorted (b :: rest)
  | _ => []

/-- findGaps from services/lib/db.js: order the stored block numbers and
report every adjacent pair whose difference exceeds 1. -/
def findGaps (s : Store) : List GapRow :=
  gapsOfSorted (List.insertionSort (fun m n => m ≤ n) (s.map (fun r => r.block_number)))

/-- cleanupOldBlocks from services/lib/db.js: DELETE rows whose created_at
is strictly before now minus the retention window, reporting the count. -/
def cleanupOldBlocks (s : Store) (now window : Int) : Store × Nat :=
  match s with
  | [] => ([], 0)
  | r :: rest =>
    let res := cleanupOldBlocks rest now window
    if r.created_at < now - window then (res.1, res.2 + 1)
    else (r :: res.1, res.2)

/-! ## Retry wrapper (queryWithRetry in services/lib/db.js) -/

/-- A database error as inspected by queryWithRetry: a code and a message. -/
structure DbError where
  code : String
  message : String
deriving DecidableEq

/-- The first list starts the second. -/
def charsLead : List Char → List Char → Bool
  | [], _ => true
  | _ :: _, [] => false
  | c :: cs, d :: ds => c == d && charsLead cs ds

/-- The first list occurs inside the second. -/
def charsContain (pat : List Char) : List Char → Bool
  | [] => charsLead pat []
  | c :: cs => charsLead pat (c :: cs) || charsContain pat cs

/-- String containment, modelling the JavaScript includes test. -/
def strIncludes (s pat : String) : Bool :=
  charsContain pat.data s.data

/-- The transient-failure test of queryWithRetry: connection reset, timeout,
admin shutdown, connection failure, client unable to connect, or a message
mentioning a terminated connection. -/
def isTransientError (e : DbError) : Bool :=
  e.code == "ECONNRESET" || e.code == "ETIMEDOUT" || e.code == "57P01" ||
    e.code == "08006" || e.code == "08001" ||
    strIncludes e.message "Connection terminated"

/-- The backoff delay before the retry that follows the given attempt:
1000 ms doubling per attempt, capped at 10000 ms. -/
def retryDelay (attempt : Nat) : Nat :=
  min (1000 * 2 ^ (attempt - 1)) 10000

/-- The retry loop of queryWithRetry, from a given attempt number: returns the
final outcome together with the list of backoff delays that were slept.  A
transient error before the last attempt sleeps and retries; any other error
propagates at once. -/
def queryLoop {α : Type} (exec : Nat → Except DbError α) (maxRetries attempt : Nat) :
    Except DbError α × List Nat :=
  match exec attempt with
  | .ok r => (.ok r, [])
  | .error e =>
    if h : isTransientError e = true ∧ attempt < maxRetries then
      let rest := queryLoop exec maxRetries (attempt + 1)
      (rest.1, retryDelay attempt :: rest.2)
    else (.error e, [])
termination_by maxRetries - attempt
decreasing_by
  simp_wf
  omega

/-- queryWithRetry from services/lib/db.js: attempts start at 1. -/
def queryWithRetry {α : Type} (exec : Nat → Except DbError α) (maxRetries : Nat) :
    Except DbError α × List Nat :=
  queryLoop exec maxRetries 1

/-! ## Live subscriber and backfill (ingestion service) -/

/-- One step of the backfill loop: fetch a block number from the chain and
insert it when available; a failed fetch is skipped. -/
def backfillStep (chain : Nat → Option Block) (now : Int) (s : Store) (n : Nat) : Store :=
  match chain n with
  | some b => (insertBlockStore s b now).1
  | none => s

/-- backfillMissingBlocks from the ingestion service: walk the inclusive
range fromBlock..toBlock in order, fetching and inserting each block. -/
def backfillMissingBlocks (chain : Nat → Option Block) (now : Int) (s : Store)
    (fromBlock toBlock : Nat) : Store :=
  (List.range' fromBlock (toBlock + 1 - fromBlock)).foldl (backfillStep chain now) s

/-- The mutable state the live block handler reads and writes. -/
structure IngestState where
  store : Store
  lastProcessedBlockNumber : Option Nat

/-- The provider block handler of the ingestion service: when the notified
number exceeds lastProcessedBlockNumber + 1 the skipped range is backfilled,
then the notified block is fetched and inserted and the tracking variable is
advanced; the returned pair also reports which range, if any, was backfilled. -/
def handleBlockNotification (chain : Nat → Option Block) (now : Int)
    (st : IngestState) (blockNumber : Nat) : IngestState × Option (Nat × Nat) :=
  let gapRange : Option (Nat × Nat) :=
    match st.lastProcessedBlockNumber with
    | some lastProcessed =>
      if lastProcessed + 1 < blockNumber then some (lastProcessed + 1, blockNumber - 1)
      else none
    | none => none
  let s1 : Store :=
    match gapRange with
    | some range => backfillMissingBlocks chain now st.store range.1 range.2
    | none => st.store
  match chain blockNumber with
  | some block =>
    ({ store := (insertBlockStore s1 block now).1, lastProcessedBlockNumber := some blockNumber },
      gapRange)
  | none => ({ store := s1, lastProcessedBlockNumber := st.lastProcessedBlockNumber }, gapRange)

/-! ## Concrete fixtures used by the witnesses -/

/-- A sample provider block with the given number. -/
def blockW (n : Nat) : Block :=
  { number := n, gasLimit := 30000000, gasUsed := 15000000, baseFeePerGas := some 7,
    blobGasUsed := some 131072, excessBlobGas := some 0, timestamp := some 1700000000 }

/-- A sample provider block whose chain timestamp is 0. -/
def blockTs0W : Block :=
  { blockW 5 with timestamp := some 0 }

/-- A chain serving exactly the blocks 101..105. -/
def chainW (k : Nat) : Option Block :=
  if 101 ≤ k ∧ k ≤ 105 then some (blockW k) else none

/-- A store already holding block 100. -/
def storeW : Store :=
  [rowOfBlock (blockW 100) 0]

/-- A store holding exactly the block numbers 1, 2, 3, 7, 8, 10. -/
def storeGapsW : Store :=
  [rowOfBlock (blockW 3) 0, rowOfBlock (blockW 1) 0, rowOfBlock (blockW 7) 0,
    rowOfBlock (blockW 2) 0, rowOfBlock (blockW 10) 0, rowOfBlock (blockW 8) 0]

/-- A store with one stale row (created at 0) and one fresh row (created at 100). -/
def storeCleanupW : Store :=
  [rowOfBlock (blockW 1) 0, rowOfBlock (blockW 2) 100]

/-- An execution that always fails with a connection reset. -/
def execResetW : Nat → Except DbError Nat :=
  fun _ => .error { code := "ECONNRESET", message := "" }

/-- An execution that always fails with a duplicate-key violation, which is
not a transient failure class. -/
def execFatalW : Nat → Except DbError Nat :=
  fun _ => .error { code := "23505", message := "duplicate key" }

/-! ## Fee model lemmas -/

theorem fakeExpFuel_sound (numerator denominator : Nat) :
    ∀ (fuel i output acc r : Nat),
      fakeExpFuel numerator denominator fuel i output acc = some r →
      fakeExpLoop numerator denominator i output acc / denominator = r := by
  intro fuel
  induction fuel with
  | zero => intro i output acc r h; simp [fakeExpFuel] at h
  | succ n ih =>
    intro i output acc r h
    simp only [fakeExpFuel] at h
    by_cases hz : acc = 0
    · rw [if_pos hz] at h
      rw [fakeExpLoop.eq_def, dif_neg (by omega : ¬0 < acc)]
      simpa using h
    · rw [if_neg hz] at h
      rw [fakeExpLoop.eq_def, dif_pos (by omega : 0 < acc)]
      exact ih _ _ _ _ h

theorem refSeriesFuel_sound (numerator denominator : Nat) :
    ∀ (fuel i output term r : Nat),
      fakeExpFuel numerator denominator fuel i output term = some r →
      refSeriesLoop numerator denominator i output term = r := by
  intro fuel
  induction fuel with
  | zero => intro i output term r h; simp [fakeExpFuel] at h
  | succ n ih =>
    intro i output term r h
    simp only [fakeExpFuel] at h
    by_cases hz : term = 0
    · rw [if_pos hz] at h
      rw [refSeriesLoop.eq_def, dif_neg (by omega : ¬0 < term)]
      simpa using h
    · rw [if_neg hz] at h
      rw [refSeriesLoop.eq_def, dif_pos (by omega : 0 < term)]
      exact ih _ _ _ _ h

theorem fakeExpLoop_fuel_exists (numerator denominator : Nat) :
    ∀ i output acc, ∃ fuel, fakeExpFuel numerator denominator fuel i output acc =
      some (fakeExpLoop numerator denominator i output acc / denominator) := by
  intro i output acc
  induction i, output, acc using fakeExpLoop.induct numerator denominator with
  | case1 i output acc h ih =>
    obtain ⟨fuel, hf⟩ := ih
    refine ⟨fuel + 1, ?_⟩
    rw [fakeExpLoop.eq_def, dif_pos h]
    simpa [fakeExpFuel, Nat.pos_iff_ne_zero.mp h] using hf
  | case2 i output acc h =>
    refine ⟨1, ?_⟩
    rw [fakeExpLoop.eq_def, dif_neg h]
    simp [fakeExpFuel, show acc = 0 by omega]

theorem fakeExponential_eval (factor numerator denominator fuel r : Nat)
    (h : fakeExpFuel numerator denominator fuel 1 0 (factor * denominator) = some r) :
    fakeExponential factor numerator denominator = r :=
  fakeExpFuel_sound numerator denominator fuel 1 0 (factor * denominator) r h

theorem fakeExponential_zero_num (d : Nat) (hd : 1 ≤ d) : fakeExponential 1 0 d = 1 := by
  unfold fakeExponential
  rw [fakeExpLoop.eq_def, dif_pos (show 0 < 1 * d by omega)]
  rw [fakeExpLoop.eq_def]
  rw [dif_neg (show ¬0 < 1 * d * 0 / (d * 1) by simp)]
  simp [Nat.div_self (show 0 < d by omega)]

set_option maxRecDepth 40000

/-- Claim C1 (code bug): the source computes fakeExponential with JavaScript
Numbers, that is IEEE-754 doubles, so at factor 1, numerator
315251973915934721 and denominator 2 to the 53 the code returns
1586013452313431 while the exact integer reference series required by the
claim returns 1586013452313430: the claimed bit-for-bit match for numerators
beyond the 64-bit range fails on the code. -/
theorem fakeExponential_double_rounding :
    fakeExponentialJS 1 315251973915934721 9007199254740992 200 = some 1586013452313431 ∧
    referenceFakeExponential 1 315251973915934721 9007199254740992 = 1586013452313430 ∧
    (1586013452313431 : Nat) ≠ 1586013452313430 := by
  refine ⟨by decide, ?_, by decide⟩
  exact refSeriesFuel_sound 315251973915934721 9007199254740992 200 1 0
    (1 * 9007199254740992) 1586013452313430 (by decide)

/-- Claim C9: the fakeExponential loop terminates on every input with
denominator at least 1: a finite fuel reaches the final state, and the
accumulator strictly decreases as soon as denominator * i exceeds the
numerator. -/
theorem fakeExponential_terminates (factor numerator denominator : Nat)
    (_hden : 1 ≤ denominator) :
    (∃ fuel, fakeExpFuel numerator denominator fuel 1 0 (factor * denominator) =
        some (fakeExponential factor numerator denominator)) ∧
    (∀ numeratorAccum i, 0 < numeratorAccum → numerator < denominator * i →
        numeratorAccum * numerator / (denominator * i) < numeratorAccum) := by
  constructor
  · exact fakeExpLoop_fuel_exists numerator denominator 1 0 (factor * denominator)
  · intro acc i hacc hlt
    rw [Nat.div_lt_iff_lt_mul (by omega)]
    exact mul_lt_mul_of_pos_left hlt hacc

theorem fakeExponential_terminates_witness :
    ∃ fuel, fakeExpFuel 10 3 fuel 1 0 (1 * 3) = some (fakeExponential 1 10 3) :=
  (fakeExponential_terminates 1 10 3 (by decide)).1

/-- Claim C5: zero excess blob gas yields fee exactly 1 for every timestamp,
including the null timestamp, in every epoch. -/
theorem calculateBlobBaseFee_zero_excess (t : Option Nat) :
    calculateBlobBaseFee 0 t = 1 := by
  have h : 1 ≤ getUpdateFraction t := by
    unfold getUpdateFraction
    split
    · decide
    · split
      · decide
      · decide
  exact fakeExponential_zero_num _ h

/-- Claim C2 (amended): calculateBlobBaseFee selects exactly one of the three
fixed denominators by descending activation threshold — BPO2 for timestamps
at or above the BPO2 activation, BPO1 for timestamps in the BPO1 epoch,
Prague below the BPO1 activation and for the null timestamp — and on each
side of each activation boundary the value is the fakeExponential under the
epoch denominator of that side; the result strictly changes at both
boundaries for a sufficiently large excess such as 30000000, though not for
every positive excess. -/
theorem calculateBlobBaseFee_epochs :
    (∀ ts : Nat, BPO2_UPGRADE_TIMESTAMP ≤ ts →
        getUpdateFraction (some ts) = BLOB_BASE_FEE_UPDATE_FRACTION_BPO2) ∧
    (∀ ts : Nat, BPO1_UPGRADE_TIMESTAMP ≤ ts → ts < BPO2_UPGRADE_TIMESTAMP →
        getUpdateFraction (some ts) = BLOB_BASE_FEE_UPDATE_FRACTION_BPO1) ∧
    (∀ ts : Nat, ts < BPO1_UPGRADE_TIMESTAMP →
        getUpdateFraction (some ts) = BLOB_BASE_FEE_UPDATE_FRACTION_PRAGUE) ∧
    getUpdateFraction none = BLOB_BASE_FEE_UPDATE_FRACTION_PRAGUE ∧
    (∀ excess : Nat,
        calculateBlobBaseFee excess (some (BPO1_UPGRADE_TIMESTAMP - 1)) =
          fakeExponential 1 excess BLOB_BASE_FEE_UPDATE_FRACTION_PRAGUE ∧
        calculateBlobBaseFee excess (some BPO1_UPGRADE_TIMESTAMP) =
          fakeExponential 1 excess BLOB_BASE_FEE_UPDATE_FRACTION_BPO1 ∧
        calculateBlobBaseFee excess (some (BPO2_UPGRADE_TIMESTAMP - 1)) =
          fakeExponential 1 excess BLOB_BASE_FEE_UPDATE_FRACTION_BPO1 ∧
        calculateBlobBaseFee excess (some BPO2_UPGRADE_TIMESTAMP) =
          fakeExponential 1 excess BLOB_BASE_FEE_UPDATE_FRACTION_BPO2) ∧
    calculateBlobBaseFee 30000000 (some (BPO1_UPGRADE_TIMESTAMP - 1)) ≠
      calculateBlobBaseFee 30000000 (some BPO1_UPGRADE_TIMESTAMP) ∧
    calculateBlobBaseFee 30000000 (some (BPO2_UPGRADE_TIMESTAMP - 1)) ≠
      calculateBlobBaseFee 30000000 (some BPO2_UPGRADE_TIMESTAMP) := by
  have e399 : calculateBlobBaseFee 30000000 (some (BPO1_UPGRADE_TIMESTAMP - 1)) = 399 := by
    have hu : getUpdateFraction (some (BPO1_UPGRADE_TIMESTAMP - 1)) =
        BLOB_BASE_FEE_UPDATE_FRACTION_PRAGUE := by decide
    unfold calculateBlobBaseFee
    rw [hu]
    exact fakeExponential_eval 1 30000000 5007716 60 399 (by decide)
  have e36 : calculateBlobBaseFee 30000000 (some BPO1_UPGRADE_TIMESTAMP) = 36 := by
    have hu : getUpdateFraction (some BPO1_UPGRADE_TIMESTAMP) =
        BLOB_BASE_FEE_UPDATE_FRACTION_BPO1 := by decide
    unfold calculateBlobBaseFee
    rw [hu]
    exact fakeExponential_eval 1 30000000 8346193 60 36 (by decide)
  have e36b : calculateBlobBaseFee 30000000 (some (BPO2_UPGRADE_TIMESTAMP - 1)) = 36 := by
    have hu : getUpdateFraction (some (BPO2_UPGRADE_TIMESTAMP - 1)) =
        BLOB_BASE_FEE_UPDATE_FRACTION_BPO1 := by decide
    unfold calculateBlobBaseFee
    rw [hu]
    exact fakeExponential_eval 1 30000000 8346193 60 36 (by decide)
  have e13 : calculateBlobBaseFee 30000000 (some BPO2_UPGRADE_TIMESTAMP) = 13 := by
    have hu : getUpdateFraction (some BPO2_UPGRADE_TIMESTAMP) =
        BLOB_BASE_FEE_UPDATE_FRACTION_BPO2 := by decide
    unfold calculateBlobBaseFee
    rw [hu]
    exact fakeExponential_eval 1 30000000 11684671 60 13 (by decide)
  refine ⟨?_, ?_, ?_, by decide, ?_, ?_, ?_⟩
  · intro ts hts
    have h1 : (1767747671 : Nat) ≤ ts := hts
    unfold getUpdateFraction
    rw [if_pos ⟨by simp [truthyN]; omega, by simpa using hts⟩]
  · intro ts h1 h2
    have h1' : (1765290071 : Nat) ≤ ts := h1
    have h2' : ts < 1767747671 := h2
    have hneg : ¬(truthyN (some ts) = true ∧ BPO2_UPGRADE_TIMESTAMP ≤ (some ts).getD 0) := by
      rintro ⟨-, hc⟩
      have : (1767747671 : Nat) ≤ ts := by simpa using hc
      omega
    have hpos : truthyN (some ts) = true ∧ BPO1_UPGRADE_TIMESTAMP ≤ (some ts).getD 0 :=
      ⟨by simp [truthyN]; omega, by simpa using h1⟩
    unfold getUpdateFraction
    rw [if_neg hneg, if_pos hpos]
  · intro ts hlt
    have hlt' : ts < 1765290071 := hlt
    have hneg2 : ¬(truthyN (some ts) = true ∧ BPO2_UPGRADE_TIMESTAMP ≤ (some ts).getD 0) := by
      rintro ⟨-, hc⟩
      have : (1767747671 : Nat) ≤ ts := by simpa using hc
      omega
    have hneg1 : ¬(truthyN (some ts) = true ∧ BPO1_UPGRADE_TIMESTAMP ≤ (some ts).getD 0) := by
      rintro ⟨-, hc⟩
      have : (1765290071 : Nat) ≤ ts := by simpa using hc
      omega
    unfold getUpdateFraction
    rw [if_neg hneg2, if_neg hneg1]
  · intro excess
    refine ⟨?_, ?_, ?_, ?_⟩
    · exact congrArg (fakeExponential 1 excess) (by decide)
    · exact congrArg (fakeExponential 1 excess) (by decide)
    · exact congrArg (fakeExponential 1 excess) (by decide)
    · exact congrArg (fakeExponential 1 excess) (by decide)
  · rw [e399, e36]
    decide
  · rw [e36b, e13]
    decide

theorem calculateBlobBaseFee_epochs_witness :
    getUpdateFraction (some 1767747671) = BLOB_BASE_FEE_UPDATE_FRACTION_BPO2 ∧
    getUpdateFraction (some 1765290071) = BLOB_BASE_FEE_UPDATE_FRACTION_BPO1 ∧
    getUpdateFraction (some 1765290070) = BLOB_BASE_FEE_UPDATE_FRACTION_PRAGUE :=
  ⟨calculateBlobBaseFee_epochs.1 1767747671 (by decide),
    calculateBlobBaseFee_epochs.2.1 1765290071 (by decide) (by decide),
    calculateBlobBaseFee_epochs.2.2.1 1765290070 (by decide)⟩

/-- Claim C2 counterexample: at excessBlobGas = 1 the computed fee is 1 on
both sides of the BPO1 activation boundary, so the result does not strictly
change there for every positive excess. -/
theorem calculateBlobBaseFee_boundary_counterexample :
    0 < 1 ∧
      calculateBlobBaseFee 1 (some (BPO1_UPGRADE_TIMESTAMP - 1)) =
        calculateBlobBaseFee 1 (some BPO1_UPGRADE_TIMESTAMP) := by
  refine ⟨by decide, ?_⟩
  have e1 : calculateBlobBaseFee 1 (some (BPO1_UPGRADE_TIMESTAMP - 1)) = 1 := by
    have hu : getUpdateFraction (some (BPO1_UPGRADE_TIMESTAMP - 1)) =
        BLOB_BASE_FEE_UPDATE_FRACTION_PRAGUE := by decide
    unfold calculateBlobBaseFee
    rw [hu]
    exact fakeExponential_eval 1 1 5007716 5 1 (by decide)
  have e2 : calculateBlobBaseFee 1 (some BPO1_UPGRADE_TIMESTAMP) = 1 := by
    have hu : getUpdateFraction (some BPO1_UPGRADE_TIMESTAMP) =
        BLOB_BASE_FEE_UPDATE_FRACTION_BPO1 := by decide
    unfold calculateBlobBaseFee
    rw [hu]
    exact fakeExponential_eval 1 1 8346193 5 1 (by decide)
  rw [e1, e2]

/-! ## Store lemmas -/

theorem countRows_pos_of_has (s : Store) (n : Nat) (h : hasBlockNumber s n = true) :
    1 ≤ countRows s n := by
  obtain ⟨r, hmem, hr⟩ := List.any_eq_true.mp h
  unfold countRows
  exact List.length_pos.mpr (List.ne_nil_of_mem (List.mem_filter.mpr ⟨hmem, hr⟩))

theorem countRows_zero_of_not_has (s : Store) (n : Nat) (h : hasBlockNumber s n = false) :
    countRows s n = 0 := by
  unfold countRows
  rw [List.filter_eq_nil_iff.mpr]
  · rfl
  · intro r hr
    simp only [hasBlockNumber, List.any_eq_false] at h
    simp [h r hr]

theorem hasBlockNumber_append_row (s : Store) (b : Block) (now : Int) :
    hasBlockNumber (s ++ [rowOfBlock b now]) b.number = true := by
  simp [hasBlockNumber, List.any_append, rowOfBlock]

/-- Claim C3: inserting the same block twice leaves exactly one row for its
number; the second call is a no-op that returns inserted = false and leaves
the stored row unchanged; the conflict case is an ordinary return, never an
error. -/
theorem insertBlock_idempotent (s : Store) (b : Block) (now1 now2 : Int)
    (hcount : countRows s b.number ≤ 1) :
    (insertBlockStore (insertBlockStore s b now1).1 b now2).2 = false ∧
    (insertBlockStore (insertBlockStore s b now1).1 b now2).1 =
      (insertBlockStore s b now1).1 ∧
    countRows (insertBlockStore (insertBlockStore s b now1).1 b now2).1 b.number = 1 := by
  by_cases h : hasBlockNumber s b.number = true
  · have h1 : insertBlockStore s b now1 = (s, false) := by
      unfold insertBlockStore
      rw [if_pos h]
    have hc := countRows_pos_of_has s b.number h
    rw [h1]
    have h2 : insertBlockStore s b now2 = (s, false) := by
      unfold insertBlockStore
      rw [if_pos h]
    rw [h2]
    refine ⟨rfl, rfl, ?_⟩
    show countRows s b.number = 1
    omega
  · have hb : hasBlockNumber s b.number = false := by
      simpa using h
    have h1 : insertBlockStore s b now1 = (s ++ [rowOfBlock b now1], true) := by
      unfold insertBlockStore
      rw [if_neg (by simp [hb])]
    rw [h1]
    have h2 : insertBlockStore (s ++ [rowOfBlock b now1]) b now2 =
        (s ++ [rowOfBlock b now1], false) := by
      unfold insertBlockStore
      rw [if_pos (hasBlockNumber_append_row s b now1)]
    rw [h2]
    refine ⟨rfl, rfl, ?_⟩
    have hz : countRows s b.number = 0 := countRows_zero_of_not_has s b.number hb
    unfold countRows at hz ⊢
    rw [List.filter_append, List.length_append, hz]
    simp [rowOfBlock]

theorem insertBlock_idempotent_witness :
    countRows ([] : Store) (blockW 42).number ≤ 1 ∧
    (insertBlockStore (insertBlockStore ([] : Store) (blockW 42) 0).1 (blockW 42) 0).2 = false ∧
    (insertBlockStore (insertBlockStore ([] : Store) (blockW 42) 0).1 (blockW 42) 0).1 =
      (insertBlockStore ([] : Store) (blockW 42) 0).1 ∧
    countRows
      (insertBlockStore (insertBlockStore ([] : Store) (blockW 42) 0).1 (blockW 42) 0).1
      (blockW 42).number = 1 :=
  ⟨by decide, insertBlock_idempotent [] (blockW 42) 0 0 (by decide)⟩

/-- Claim C4: for a store whose block numbers are exactly 1, 2, 3, 7, 8, 10
the gap query returns exactly the two gap rows (3, 7, 3) and (8, 10, 1) in
ascending order of block number, and a store with zero rows or one row
yields no gaps. -/
theorem findGaps_spec :
    (∀ s : Store, (s.map (fun r => r.block_number)).Perm [1, 2, 3, 7, 8, 10] →
      findGaps s =
        [{ after_block := 3, before_block := 7, missing_count := 3 },
          { after_block := 8, before_block := 10, missing_count := 1 }]) ∧
    (∀ s : Store, s.length ≤ 1 → findGaps s = []) := by
  constructor
  · intro s hp
    have e : List.insertionSort (fun m n => m ≤ n) (s.map (fun r => r.block_number)) =
        [1, 2, 3, 7, 8, 10] := by
      refine List.eq_of_perm_of_sorted ((List.perm_insertionSort _ _).trans hp)
        (List.sorted_insertionSort (fun m n => m ≤ n) _) (by decide)
    unfold findGaps
    rw [e]
    decide
  · intro s hs
    cases s with
    | nil => rfl
    | cons r1 t =>
      cases t with
      | nil => rfl
      | cons r2 t2 =>
        simp only [List.length_cons] at hs
        omega

theorem findGaps_spec_witness :
    (storeGapsW.map (fun r => r.block_number)).Perm [1, 2, 3, 7, 8, 10] ∧
    findGaps storeGapsW =
      [{ after_block := 3, before_block := 7, missing_count := 3 },
        { after_block := 8, before_block := 10, missing_count := 1 }] ∧
    findGaps storeW = [] :=
  ⟨by decide, findGaps_spec.1 storeGapsW (by decide), findGaps_spec.2 storeW (by decide)⟩

theorem cleanupOldBlocks_cons (r : Row) (rest : Store) (now window : Int) :
    cleanupOldBlocks (r :: rest) now window =
      if r.created_at < now - window then
        ((cleanupOldBlocks rest now window).1, (cleanupOldBlocks rest now window).2 + 1)
      else (r :: (cleanupOldBlocks rest now window).1, (cleanupOldBlocks rest now window).2) := by
  simp only [cleanupOldBlocks]

/-- Claim C8: after cleanupOldBlocks no remaining row predates now minus the
window, every row within the window survives unchanged, only rows of the
original store remain, and the reported count is exactly the number of rows
removed. -/
theorem cleanupOldBlocks_retention (s : Store) (now window : Int) :
    (∀ r ∈ (cleanupOldBlocks s now window).1, ¬(r.created_at < now - window)) ∧
    (∀ r ∈ s, ¬(r.created_at < now - window) → r ∈ (cleanupOldBlocks s now window).1) ∧
    (∀ r ∈ (cleanupOldBlocks s now window).1, r ∈ s) ∧
    (cleanupOldBlocks s now window).2 + (cleanupOldBlocks s now window).1.length = s.length := by
  induction s with
  | nil =>
    refine ⟨?_, ?_, ?_, ?_⟩ <;> simp [cleanupOldBlocks]
  | cons r rest ih =>
    obtain ⟨ih1, ih2, ih3, ih4⟩ := ih
    by_cases hr : r.created_at < now - window
    · rw [cleanupOldBlocks_cons, if_pos hr]
      dsimp only
      refine ⟨ih1, ?_, ?_, ?_⟩
      · intro x hx hxc
        rcases List.mem_cons.mp hx with rfl | hx
        · exact absurd hr hxc
        · exact ih2 x hx hxc
      · intro x hx
        exact List.mem_cons_of_mem _ (ih3 x hx)
      · simp only [List.length_cons]
        omega
    · rw [cleanupOldBlocks_cons, if_neg hr]
      dsimp only
      refine ⟨?_, ?_, ?_, ?_⟩
      · intro x hx
        rcases List.mem_cons.mp hx with rfl | hx
        · exact hr
        · exact ih1 x hx
      · intro x hx hxc
        rcases List.mem_cons.mp hx with rfl | hx
        · exact List.mem_cons_self _ _
        · exact List.mem_cons_of_mem _ (ih2 x hx hxc)
      · intro x hx
        rcases List.mem_cons.mp hx with rfl | hx
        · exact List.mem_cons_self _ _
        · exact List.mem_cons_of_mem _ (ih3 x hx)
      · simp only [List.length_cons]
        omega

theorem cleanupOldBlocks_retention_witness :
    rowOfBlock (blockW 2) 100 ∈ (cleanupOldBlocks storeCleanupW 200 150).1 ∧
    (cleanupOldBlocks storeCleanupW 200 150).2 +
      (cleanupOldBlocks storeCleanupW 200 150).1.length = storeCleanupW.length :=
  ⟨(cleanupOldBlocks_retention storeCleanupW 200 150).2.1 (rowOfBlock (blockW 2) 100)
      (by simp [storeCleanupW]) (by decide),
    (cleanupOldBlocks_retention storeCleanupW 200 150).2.2.2⟩

/-! ## Retry lemmas -/

theorem queryLoop_all_transient {α : Type} (exec : Nat → Except DbError α)
    (errs : Nat → DbError) (maxRetries : Nat)
    (hex : ∀ i, 1 ≤ i → i ≤ maxRetries → exec i = .error (errs i))
    (htr : ∀ i, 1 ≤ i → i ≤ maxRetries → isTransientError (errs i) = true) :
    ∀ n attempt, maxRetries - attempt = n → 1 ≤ attempt → attempt ≤ maxRetries →
      queryLoop exec maxRetries attempt =
        (.error (errs maxRetries), (List.range' attempt n).map retryDelay) := by
  intro n
  induction n with
  | zero =>
    intro attempt h0 h1 h2
    have ha : attempt = maxRetries := by omega
    subst ha
    rw [queryLoop.eq_def, hex attempt h1 (le_refl _)]
    dsimp only
    rw [dif_neg (fun hc => absurd hc.2 (Nat.lt_irrefl _))]
    simp
  | succ n ih =>
    intro attempt h0 h1 h2
    have hlt : attempt < maxRetries := by omega
    rw [queryLoop.eq_def, hex attempt h1 (by omega)]
    dsimp only
    rw [dif_pos ⟨htr attempt h1 (by omega), hlt⟩]
    rw [ih (attempt + 1) (by omega) (by omega) (by omega)]
    rw [List.range'_succ]
    simp

/-- Claim C7: queryWithRetry retries transient failures with a base delay
that doubles per attempt up to the 10000 ms ceiling, for a bounded number of
attempts, propagating the error only after retries are exhausted, while a
non-transient error propagates immediately with no retry and no delay. -/
theorem queryWithRetry_policy :
    (∀ (exec : Nat → Except DbError Nat) (maxRetries : Nat) (e : DbError),
        1 ≤ maxRetries → exec 1 = .error e → isTransientError e = false →
        queryWithRetry exec maxRetries = (.error e, [])) ∧
    (∀ (exec : Nat → Except DbError Nat) (maxRetries : Nat) (errs : Nat → DbError),
        1 ≤ maxRetries →
        (∀ i, 1 ≤ i → i ≤ maxRetries → exec i = .error (errs i)) →
        (∀ i, 1 ≤ i → i ≤ maxRetries → isTransientError (errs i) = true) →
        queryWithRetry exec maxRetries =
          (.error (errs maxRetries),
            (List.range (maxRetries - 1)).map (fun k => min (1000 * 2 ^ k) 10000))) ∧
    (∀ attempt, 1 ≤ attempt →
        retryDelay (attempt + 1) = min (2 * retryDelay attempt) 10000) := by
  refine ⟨?_, ?_, ?_⟩
  · intro exec maxRetries e hmr hex htr
    unfold queryWithRetry
    rw [queryLoop.eq_def, hex]
    dsimp only
    have hneg : ¬(isTransientError e = true ∧ 1 < maxRetries) := by
      rintro ⟨hc, -⟩
      rw [htr] at hc
      exact absurd hc (by simp)
    rw [dif_neg hneg]
  · intro exec maxRetries errs hmr hex htr
    unfold queryWithRetry
    rw [queryLoop_all_transient exec errs maxRetries hex htr (maxRetries - 1) 1 (by omega)
      (le_refl _) hmr]
    congr 1
    rw [List.range'_eq_map_range, List.map_map]
    congr 1
    funext k
    simp only [Function.comp, retryDelay]
    have hk : 1 + k - 1 = k := by omega
    rw [hk]
  · intro attempt h
    obtain ⟨b, rfl⟩ : ∃ b, attempt = b + 1 := ⟨attempt - 1, by omega⟩
    simp only [retryDelay, Nat.add_sub_cancel]
    rw [pow_succ]
    omega

theorem queryWithRetry_policy_witness :
    (isTransientError { code := "23505", message := "duplicate key" } = false ∧
      queryWithRetry execFatalW 3 =
        (.error { code := "23505", message := "duplicate key" }, [])) ∧
    queryWithRetry execResetW 3 =
      (.error { code := "ECONNRESET", message := "" }, [1000, 2000]) := by
  refine ⟨⟨by decide, ?_⟩, ?_⟩
  · exact queryWithRetry_policy.1 execFatalW 3 _ (by decide) rfl (by decide)
  · have h := queryWithRetry_policy.2.1 execResetW 3
      (fun _ => { code := "ECONNRESET", message := "" }) (by decide)
      (fun i h1 h2 => rfl) (fun i h1 h2 => rfl)
    rw [h]
    rfl

/-! ## Ingestion lemmas -/

theorem insertBlockStore_eq_pos (s : Store) (b : Block) (now : Int)
    (h : hasBlockNumber s b.number = true) : insertBlockStore s b now = (s, false) := by
  unfold insertBlockStore
  rw [if_pos h]

theorem insertBlockStore_eq_neg (s : Store) (b : Block) (now : Int)
    (h : hasBlockNumber s b.number = false) :
    insertBlockStore s b now = (s ++ [rowOfBlock b now], true) := by
  unfold insertBlockStore
  rw [if_neg (by simp [h])]

theorem containsBlock_insert_preserved (s : Store) (b : Block) (now : Int) (m : Nat)
    (h : containsBlock s m) : containsBlock (insertBlockStore s b now).1 m := by
  cases hb : hasBlockNumber s b.number with
  | true =>
    rw [insertBlockStore_eq_pos s b now hb]
    exact h
  | false =>
    rw [insertBlockStore_eq_neg s b now hb]
    obtain ⟨r, hr, hrn⟩ := h
    exact ⟨r, List.mem_append_left _ hr, hrn⟩

theorem containsBlock_insert_self (s : Store) (b : Block) (now : Int) :
    containsBlock (insertBlockStore s b now).1 b.number := by
  cases hb : hasBlockNumber s b.number with
  | true =>
    rw [insertBlockStore_eq_pos s b now hb]
    obtain ⟨r, hr, hrn⟩ := List.any_eq_true.mp hb
    exact ⟨r, hr, by simpa using hrn⟩
  | false =>
    rw [insertBlockStore_eq_neg s b now hb]
    exact ⟨rowOfBlock b now, List.mem_append_right _ (List.mem_singleton_self _), rfl⟩

theorem backfill_foldl_preserved (chain : Nat → Option Block) (now : Int) (l : List Nat)
    (s : Store) (m : Nat) (h : containsBlock s m) :
    containsBlock (l.foldl (backfillStep chain now) s) m := by
  induction l generalizing s with
  | nil => exact h
  | cons n t ih =>
    rw [List.foldl_cons]
    apply ih
    cases hc : chain n with
    | none => simpa [backfillStep, hc] using h
    | some b =>
      have := containsBlock_insert_preserved s b now m h
      simpa [backfillStep, hc] using this

theorem backfill_foldl_adds (chain : Nat → Option Block) (now : Int) (l : List Nat) :
    ∀ (s : Store) (n : Nat), n ∈ l →
      (∀ k ∈ l, ∃ b, chain k = some b ∧ b.number = k) →
      containsBlock (l.foldl (backfillStep chain now) s) n := by
  induction l with
  | nil =>
    intro s n hn _
    cases hn
  | cons a t ih =>
    intro s n hn hc
    rw [List.foldl_cons]
    rcases List.mem_cons.mp hn with rfl | hmem
    · apply backfill_foldl_preserved
      obtain ⟨b, hcb, hbn⟩ := hc n (List.mem_cons_self _ _)
      have hself := containsBlock_insert_self s b now
      rw [hbn] at hself
      simpa [backfillStep, hcb] using hself
    · exact ih _ n hmem (fun k hk => hc k (List.mem_cons_of_mem _ hk))

/-- Claim C6: with lastProcessedBlockNumber = 100 and a live notification for
block 105, the handler backfills exactly the skipped range 101..104 and
inserts block 105; after both complete the store holds every block from 100
through 105. -/
theorem handleBlock_gap_heals (chain : Nat → Option Block) (now : Int) (s : Store)
    (h100 : containsBlock s 100)
    (hchain : ∀ k, 101 ≤ k → k ≤ 105 → ∃ b, chain k = some b ∧ b.number = k) :
    (handleBlockNotification chain now
        { store := s, lastProcessedBlockNumber := some 100 } 105).2 = some (101, 104) ∧
    ∀ k, 100 ≤ k → k ≤ 105 →
      containsBlock (handleBlockNotification chain now
        { store := s, lastProcessedBlockNumber := some 100 } 105).1.store k := by
  obtain ⟨b105, hb105, hn105⟩ := hchain 105 (by omega) (by omega)
  have hunfold : handleBlockNotification chain now
      { store := s, lastProcessedBlockNumber := some 100 } 105 =
      ({ store := (insertBlockStore (backfillMissingBlocks chain now s 101 104) b105 now).1,
          lastProcessedBlockNumber := some 105 }, some (101, 104)) := by
    unfold handleBlockNotification
    simp [hb105]
  rw [hunfold]
  refine ⟨rfl, ?_⟩
  intro k hk1 hk2
  dsimp only
  by_cases hk5 : k = 105
  · subst hk5
    have hself := containsBlock_insert_self (backfillMissingBlocks chain now s 101 104) b105 now
    rwa [hn105] at hself
  · apply containsBlock_insert_preserved
    by_cases hk0 : k = 100
    · subst hk0
      exact backfill_foldl_preserved chain now _ s 100 h100
    · apply backfill_foldl_adds chain now _ _ k
      · rw [List.mem_range'_1]
        omega
      · intro j hj
        rw [List.mem_range'_1] at hj
        exact hchain j (by omega) (by omega)

theorem handleBlock_gap_heals_witness :
    containsBlock storeW 100 ∧
    (handleBlockNotification chainW 0
        { store := storeW, lastProcessedBlockNumber := some 100 } 105).2 = some (101, 104) ∧
    containsBlock (handleBlockNotification chainW 0
        { store := storeW, lastProcessedBlockNumber := some 100 } 105).1.store 103 := by
  have hch : ∀ k, 101 ≤ k → k ≤ 105 → ∃ b, chainW k = some b ∧ b.number = k := by
    intro k h1 h2
    exact ⟨blockW k, by simp [chainW, h1, h2], rfl⟩
  have h100 : containsBlock storeW 100 :=
    ⟨rowOfBlock (blockW 100) 0, by simp [storeW], rfl⟩
  have h := handleBlock_gap_heals chainW 0 storeW h100 hch
  exact ⟨h100, h.1, h.2 103 (by decide) (by decide)⟩

/-- Claim C10: a block whose timestamp field is absent or 0 is stored with a
null block_timestamp and its blob fee is computed under the Prague fraction,
because both the date conversion of insertBlock and the epoch selection of
getUpdateFraction test the timestamp for truthiness, treating 0 like null. -/
theorem insertBlock_timestamp_zero (b : Block) (now : Int)
    (h : b.timestamp = none ∨ b.timestamp = some 0) :
    (rowOfBlock b now).block_timestamp = none ∧
    (rowOfBlock b now).blob_base_fee =
      fakeExponential 1 (b.excessBlobGas.getD 0) BLOB_BASE_FEE_UPDATE_FRACTION_PRAGUE ∧
    getUpdateFraction (some 0) = getUpdateFraction none := by
  refine ⟨?_, ?_, by decide⟩ <;>
    rcases h with h | h <;>
      simp [rowOfBlock, h, truthyN, calculateBlobBaseFee, getUpdateFraction,
        MIN_BASE_FEE_PER_BLOB_GAS]

theorem insertBlock_timestamp_zero_witness :
    (blockTs0W.timestamp = none ∨ blockTs0W.timestamp = some 0) ∧
    (rowOfBlock blockTs0W 0).block_timestamp = none ∧
    (rowOfBlock blockTs0W 0).blob_base_fee =
      fakeExponential 1 (blockTs0W.excessBlobGas.getD 0) BLOB_BASE_FEE_UPDATE_FRACTION_PRAGUE ∧
    getUpdateFraction (some 0) = getUpdateFraction none :=
  ⟨Or.inr rfl, insertBlock_timestamp_zero blockTs0W 0 (Or.inr rfl)⟩
